import Mathlib

set_option maxRecDepth 100000

/-!
Shallow embedding of the cloud-disk worker (`workers/` Hono app) for
verification of its natural-language specification.

Conventions:
* machine bytes are `Nat` values with explicit `< 256` bounds where it matters;
* the Web platform primitives `btoa`/`atob` (standard base64) are embedded
  concretely; the source's `encodeBase64Url`/`decodeBase64Url` padding and
  character-replacement logic is translated directly from the source;
* `JSON.stringify`/`JSON.parse` over payload objects and HMAC-SHA256
  (`crypto.subtle`) are platform primitives external to the repository; they
  are abstracted as a `Codec` of plain functions, and theorems that need their
  contracts take those contracts as hypotheses, discharged on a concrete
  executable instance.
-/

/-- A byte string: a list of `Nat`, each intended to be `< 256`. -/
abbrev Bytes := List Nat

/-- All entries of a byte string are genuine bytes. -/
def ByteOk (b : Bytes) : Prop := ∀ x ∈ b, x < 256

instance (b : Bytes) : Decidable (ByteOk b) := by
  unfold ByteOk; infer_instance

/-! ### Standard base64 (the Web platform's `btoa` / `atob`) -/

/-- The standard base64 alphabet, indexed 0–63. -/
def b64Char (n : Nat) : Char :=
  if n < 26 then Char.ofNat (65 + n)
  else if n < 52 then Char.ofNat (97 + (n - 26))
  else if n < 62 then Char.ofNat (48 + (n - 52))
  else if n = 62 then '+'
  else '/'

/-- Inverse of the standard base64 alphabet; `none` off-alphabet. -/
def b64CharVal (c : Char) : Option Nat :=
  if 'A' ≤ c ∧ c ≤ 'Z' then some (c.toNat - 65)
  else if 'a' ≤ c ∧ c ≤ 'z' then some (c.toNat - 97 + 26)
  else if '0' ≤ c ∧ c ≤ '9' then some (c.toNat - 48 + 52)
  else if c = '+' then some 62
  else if c = '/' then some 63
  else none

/-- `btoa`: standard base64 encoding of a byte string, with `'='` padding. -/
def btoa : Bytes → List Char
  | [] => []
  | [b0] => [b64Char (b0 / 4), b64Char (b0 % 4 * 16), '=', '=']
  | [b0, b1] =>
      [b64Char (b0 / 4), b64Char (b0 % 4 * 16 + b1 / 16), b64Char (b1 % 16 * 4), '=']
  | b0 :: b1 :: b2 :: rest =>
      b64Char (b0 / 4) :: b64Char (b0 % 4 * 16 + b1 / 16) ::
      b64Char (b1 % 16 * 4 + b2 / 64) :: b64Char (b2 % 64) :: btoa rest

/-- `atob`: standard base64 decoding; `none` where the platform throws. -/
def atob : List Char → Option Bytes
  | [] => some []
  | c0 :: c1 :: c2 :: c3 :: rest =>
    match b64CharVal c0, b64CharVal c1 with
    | some v0, some v1 =>
      if c2 = '=' then
        if c3 = '=' ∧ rest = [] then some [v0 * 4 + v1 / 16] else none
      else
        match b64CharVal c2 with
        | some v2 =>
          if c3 = '=' then
            if rest = [] then some [v0 * 4 + v1 / 16, v1 % 16 * 16 + v2 / 4] else none
          else
            match b64CharVal c3 with
            | some v3 =>
              match atob rest with
              | some t => some ((v0 * 4 + v1 / 16) :: (v1 % 16 * 16 + v2 / 4) ::
                                (v2 % 4 * 64 + v3) :: t)
              | none => none
            | none => none
        | none => none
    | _, _ => none
  | _ => none

/-- Source `encodeBase64Url` replacement step: plus becomes dash, slash
becomes underscore. -/
def toUrlSafe (c : Char) : Char :=
  if c = '+' then '-' else if c = '/' then '_' else c

/-- Source `decodeBase64Url` replacement step: dash becomes plus, underscore
becomes slash. -/
def fromUrlSafe (c : Char) : Char :=
  if c = '-' then '+' else if c = '_' then '/' else c

/-- Source `encodeBase64Url` minus the UTF-8 step: `btoa` then strip `'='`
then the URL-safe character replacements. -/
def b64UrlEncode (b : Bytes) : List Char :=
  ((btoa b).filter (fun c => c != '=')).map toUrlSafe

/-- Source padding step: `s + '='.repeat((4 - s.length % 4) % 4)`. -/
def padEq (s : List Char) : List Char :=
  s ++ List.replicate ((4 - s.length % 4) % 4) '='

/-- Source `decodeBase64Url` minus the UTF-8 step: URL-safe replacements,
re-pad, `atob`. -/
def b64UrlDecode (s : List Char) : Option Bytes :=
  atob (padEq (s.map fromUrlSafe))

/-! ### base64url lemmas -/

theorem b64CharVal_b64Char : ∀ n < 64, b64CharVal (b64Char n) = some n := by decide

theorem b64Char_ne_eq : ∀ n < 64, b64Char n ≠ '=' := by decide

theorem filter_ne_eq_cons {c : Char} (l : List Char) (h : c ≠ '=') :
    List.filter (fun x => x != '=') (c :: l) = c :: List.filter (fun x => x != '=') l := by
  simp [List.filter_cons, h]

theorem filter_ne_eq_cons_eq (l : List Char) :
    List.filter (fun x => x != '=') ('=' :: l) = List.filter (fun x => x != '=') l := by
  simp [List.filter_cons]

theorem toUrlSafe_b64Char_ne_dot : ∀ n < 64, toUrlSafe (b64Char n) ≠ '.' := by decide

theorem fromUrlSafe_toUrlSafe_b64Char :
    ∀ n < 64, fromUrlSafe (toUrlSafe (b64Char n)) = b64Char n := by decide

theorem padEq_cons4 (c0 c1 c2 c3 : Char) (s : List Char) :
    padEq (c0 :: c1 :: c2 :: c3 :: s) = c0 :: c1 :: c2 :: c3 :: padEq s := by
  simp only [padEq, List.length_cons, List.cons_append]
  have h : (4 - (s.length + 1 + 1 + 1 + 1) % 4) % 4 = (4 - s.length % 4) % 4 := by omega
  rw [h]

/-- Fused form of `b64UrlEncode` (the `'='`-filter and URL-safe map pushed
into the `btoa` recursion); used only as a proof vehicle. -/
def b64UrlEncodeAux : Bytes → List Char
  | [] => []
  | [b0] => [toUrlSafe (b64Char (b0 / 4)), toUrlSafe (b64Char (b0 % 4 * 16))]
  | [b0, b1] =>
      [toUrlSafe (b64Char (b0 / 4)), toUrlSafe (b64Char (b0 % 4 * 16 + b1 / 16)),
       toUrlSafe (b64Char (b1 % 16 * 4))]
  | b0 :: b1 :: b2 :: rest =>
      toUrlSafe (b64Char (b0 / 4)) :: toUrlSafe (b64Char (b0 % 4 * 16 + b1 / 16)) ::
      toUrlSafe (b64Char (b1 % 16 * 4 + b2 / 64)) :: toUrlSafe (b64Char (b2 % 64)) ::
      b64UrlEncodeAux rest

theorem b64UrlEncode_eq_aux : ∀ b : Bytes, ByteOk b → b64UrlEncode b = b64UrlEncodeAux b := by
  intro b
  induction b using btoa.induct with
  | case1 => intro _; rfl
  | case2 b0 =>
    intro h
    have hb0 : b0 < 256 := h b0 (by simp)
    unfold b64UrlEncode btoa b64UrlEncodeAux
    rw [filter_ne_eq_cons _ (b64Char_ne_eq _ (by omega)),
        filter_ne_eq_cons _ (b64Char_ne_eq _ (by omega)),
        filter_ne_eq_cons_eq, filter_ne_eq_cons_eq]
    rfl
  | case3 b0 b1 =>
    intro h
    have hb0 : b0 < 256 := h b0 (by simp)
    have hb1 : b1 < 256 := h b1 (by simp)
    unfold b64UrlEncode btoa b64UrlEncodeAux
    rw [filter_ne_eq_cons _ (b64Char_ne_eq _ (by omega)),
        filter_ne_eq_cons _ (b64Char_ne_eq _ (by omega)),
        filter_ne_eq_cons _ (b64Char_ne_eq _ (by omega)),
        filter_ne_eq_cons_eq]
    rfl
  | case4 b0 b1 b2 rest ih =>
    intro h
    have hb0 : b0 < 256 := h b0 (by simp)
    have hb1 : b1 < 256 := h b1 (by simp)
    have hb2 : b2 < 256 := h b2 (by simp)
    have hrest : ByteOk rest := fun x hx => h x (by simp [hx])
    have ih' := ih hrest
    unfold b64UrlEncode btoa b64UrlEncodeAux
    rw [filter_ne_eq_cons _ (b64Char_ne_eq _ (by omega)),
        filter_ne_eq_cons _ (b64Char_ne_eq _ (by omega)),
        filter_ne_eq_cons _ (b64Char_ne_eq _ (by omega)),
        filter_ne_eq_cons _ (b64Char_ne_eq _ (by omega))]
    simp only [List.map]
    unfold b64UrlEncode at ih'
    rw [ih']

theorem atob_padEq_aux : ∀ b : Bytes, ByteOk b →
    atob (padEq ((b64UrlEncodeAux b).map fromUrlSafe)) = some b := by
  intro b
  induction b using btoa.induct with
  | case1 => intro _; simp [b64UrlEncodeAux, padEq, atob]
  | case2 b0 =>
    intro h
    have hb0 : b0 < 256 := h b0 (by simp)
    have h1 : b0 / 4 < 64 := by omega
    have h2 : b0 % 4 * 16 < 64 := by omega
    simp only [b64UrlEncodeAux, List.map]
    rw [fromUrlSafe_toUrlSafe_b64Char _ h1, fromUrlSafe_toUrlSafe_b64Char _ h2]
    simp only [padEq, List.length_cons, List.length_nil]
    norm_num [List.replicate]
    simp only [atob, b64CharVal_b64Char _ h1, b64CharVal_b64Char _ h2]
    norm_num
    omega
  | case3 b0 b1 =>
    intro h
    have hb0 : b0 < 256 := h b0 (by simp)
    have hb1 : b1 < 256 := h b1 (by simp)
    have h1 : b0 / 4 < 64 := by omega
    have h2 : b0 % 4 * 16 + b1 / 16 < 64 := by omega
    have h3 : b1 % 16 * 4 < 64 := by omega
    simp only [b64UrlEncodeAux, List.map]
    rw [fromUrlSafe_toUrlSafe_b64Char _ h1, fromUrlSafe_toUrlSafe_b64Char _ h2,
      fromUrlSafe_toUrlSafe_b64Char _ h3]
    simp only [padEq, List.length_cons, List.length_nil]
    norm_num [List.replicate]
    simp only [atob, b64CharVal_b64Char _ h1, b64CharVal_b64Char _ h2, b64CharVal_b64Char _ h3]
    rw [if_neg (b64Char_ne_eq _ h3)]
    norm_num
    omega
  | case4 b0 b1 b2 rest ih =>
    intro h
    have hb0 : b0 < 256 := h b0 (by simp)
    have hb1 : b1 < 256 := h b1 (by simp)
    have hb2 : b2 < 256 := h b2 (by simp)
    have hrest : ByteOk rest := fun x hx => h x (by simp [hx])
    have h1 : b0 / 4 < 64 := by omega
    have h2 : b0 % 4 * 16 + b1 / 16 < 64 := by omega
    have h3 : b1 % 16 * 4 + b2 / 64 < 64 := by omega
    have h4 : b2 % 64 < 64 := by omega
    have ih' := ih hrest
    simp only [b64UrlEncodeAux, List.map] at ih' ⊢
    rw [fromUrlSafe_toUrlSafe_b64Char _ h1, fromUrlSafe_toUrlSafe_b64Char _ h2,
      fromUrlSafe_toUrlSafe_b64Char _ h3, fromUrlSafe_toUrlSafe_b64Char _ h4]
    rw [padEq_cons4]
    simp only [atob, b64CharVal_b64Char _ h1, b64CharVal_b64Char _ h2, b64CharVal_b64Char _ h3,
      b64CharVal_b64Char _ h4]
    rw [if_neg (b64Char_ne_eq _ h3), if_neg (b64Char_ne_eq _ h4)]
    rw [ih']
    simp only [Option.some.injEq, List.cons.injEq]
    refine ⟨by omega, by omega, by omega, trivial⟩

/-- Round trip of the source's URL-safe base64 pipeline on genuine bytes. -/
theorem b64UrlDecode_b64UrlEncode (b : Bytes) (h : ByteOk b) :
    b64UrlDecode (b64UrlEncode b) = some b := by
  rw [b64UrlDecode, b64UrlEncode_eq_aux b h]
  exact atob_padEq_aux b h

theorem dot_not_mem_aux : ∀ b : Bytes, ByteOk b → '.' ∉ b64UrlEncodeAux b := by
  intro b
  induction b using btoa.induct with
  | case1 => intro _; simp [b64UrlEncodeAux]
  | case2 b0 =>
    intro h
    have hb0 : b0 < 256 := h b0 (by simp)
    simp only [b64UrlEncodeAux, List.mem_cons, List.not_mem_nil, or_false]
    push_neg
    exact ⟨(toUrlSafe_b64Char_ne_dot _ (by omega)).symm,
      (toUrlSafe_b64Char_ne_dot _ (by omega)).symm⟩
  | case3 b0 b1 =>
    intro h
    have hb0 : b0 < 256 := h b0 (by simp)
    have hb1 : b1 < 256 := h b1 (by simp)
    simp only [b64UrlEncodeAux, List.mem_cons, List.not_mem_nil, or_false]
    push_neg
    exact ⟨(toUrlSafe_b64Char_ne_dot _ (by omega)).symm,
      (toUrlSafe_b64Char_ne_dot _ (by omega)).symm,
      (toUrlSafe_b64Char_ne_dot _ (by omega)).symm⟩
  | case4 b0 b1 b2 rest ih =>
    intro h
    have hb0 : b0 < 256 := h b0 (by simp)
    have hb1 : b1 < 256 := h b1 (by simp)
    have hb2 : b2 < 256 := h b2 (by simp)
    have hrest : ByteOk rest := fun x hx => h x (by simp [hx])
    have ih' := ih hrest
    simp only [b64UrlEncodeAux, List.mem_cons]
    push_neg
    exact ⟨(toUrlSafe_b64Char_ne_dot _ (by omega)).symm,
      (toUrlSafe_b64Char_ne_dot _ (by omega)).symm,
      (toUrlSafe_b64Char_ne_dot _ (by omega)).symm,
      (toUrlSafe_b64Char_ne_dot _ (by omega)).symm, ih'⟩

/-- The source's URL-safe base64 output never contains `'.'`. -/
theorem dot_not_mem_b64UrlEncode (b : Bytes) (h : ByteOk b) :
    '.' ∉ b64UrlEncode b := by
  rw [b64UrlEncode_eq_aux b h]
  exact dot_not_mem_aux b h

/-! ### Splitting on `'.'` (JS `token.split('.')`) -/

/-- JS `String.prototype.split('.')` over a character list. -/
def splitOnDot : List Char → List (List Char)
  | [] => [[]]
  | c :: rest =>
    if c = '.' then [] :: splitOnDot rest
    else
      match splitOnDot rest with
      | [] => [[c]]
      | l :: ls => (c :: l) :: ls

theorem splitOnDot_ne_nil (l : List Char) : splitOnDot l ≠ [] := by
  induction l with
  | nil => simp [splitOnDot]
  | cons c rest ih =>
    simp only [splitOnDot]
    split
    · simp
    · split
      · simp
      · simp

theorem splitOnDot_no_dot (a : List Char) (h : '.' ∉ a) : splitOnDot a = [a] := by
  induction a with
  | nil => rfl
  | cons c rest ih =>
    have hc : c ≠ '.' := fun hc => h (by simp [hc])
    have hrest : '.' ∉ rest := fun hm => h (by simp [hm])
    simp only [splitOnDot, if_neg hc, ih hrest]

theorem splitOnDot_append (a t : List Char) (h : '.' ∉ a) :
    splitOnDot (a ++ '.' :: t) = a :: splitOnDot t := by
  induction a with
  | nil => simp [splitOnDot]
  | cons c rest ih =>
    have hc : c ≠ '.' := fun hc => h (by simp [hc])
    have hrest : '.' ∉ rest := fun hm => h (by simp [hm])
    rw [List.cons_append]
    simp only [splitOnDot, if_neg hc]
    rw [ih hrest]

/-! ### The capability token service (`createJWT` / `verifyJWT`)

The payload record carries exactly the fields the worker code ever stores in a
token: `userId`/`email` for login tokens, `fileId`/`r2Key` for file share
tokens, `r2Key`/`fileName`/`type` for group item tokens, `groupId`/`userId`/
`type` for group share tokens, and always `exp`.  Absent JS object fields are
`none`. -/

structure Payload where
  userId : Option Int := none
  email : Option String := none
  fileId : Option Int := none
  groupId : Option Int := none
  r2Key : Option String := none
  fileName : Option String := none
  type : Option String := none
  exp : Int := 0
deriving DecidableEq, Repr

/-- The platform primitives used by `createJWT`/`verifyJWT` that are external
to the repository: `JSON.stringify`/`JSON.parse` composed with the UTF-8
`TextEncoder`/`TextDecoder`, and HMAC-SHA256 (`crypto.subtle.sign`, whose
`crypto.subtle.verify` counterpart recomputes the tag and compares).  Theorems
that rely on their contracts take those contracts as hypotheses. -/
structure Codec where
  stringifyPayload : Payload → Bytes
  parsePayload : Bytes → Option Payload
  hmac : Bytes → Bytes → Bytes

/-- UTF-8 bytes of an ASCII string (all source literals involved are ASCII). -/
def strBytes (s : String) : Bytes := s.data.map Char.toNat

/-- `JSON.stringify({ alg: 'HS256', typ: 'JWT' })`, the constant header. -/
def headerBytes : Bytes := strBytes "\x7b\"alg\":\"HS256\",\"typ\":\"JWT\"\x7d"

/-- Source `createJWT(payload, secret)`: base64url(header), base64url(payload
JSON), HMAC-SHA256 signature over `header + "." + payload`, joined by dots. -/
def createJWT (cdc : Codec) (payload : Payload) (secret : Bytes) : List Char :=
  let headerB64 := b64UrlEncode headerBytes
  let payloadB64 := b64UrlEncode (cdc.stringifyPayload payload)
  let data := headerB64 ++ '.' :: payloadB64
  let signature := cdc.hmac secret (data.map Char.toNat)
  data ++ '.' :: b64UrlEncode signature

/-- Source `verifyJWT(token, secret)`: split on dots (exactly three parts),
base64url-decode the signature (a decode failure is the `atob` throw caught by
the source's `try`), verify the HMAC, then decode and parse the payload (again
`null` on failure).  Note: *no expiry check happens here* — the source only
checks the signature. -/
def verifyJWT (cdc : Codec) (token : List Char) (secret : Bytes) : Option Payload :=
  match splitOnDot token with
  | [headerB64, payloadB64, signatureB64] =>
    match b64UrlDecode signatureB64 with
    | none => none
    | some signatureBytes =>
      if cdc.hmac secret ((headerB64 ++ '.' :: payloadB64).map Char.toNat) = signatureBytes then
        match b64UrlDecode payloadB64 with
        | none => none
        | some payloadBytes => cdc.parsePayload payloadBytes
      else none
  | _ => none

theorem headerBytes_ok : ByteOk headerBytes := by decide

/-- Evaluation rule for `verifyJWT` once the dot-split is known. -/
theorem verifyJWT_eq_of_split (cdc : Codec) (token : List Char) (secret : Bytes)
    (h p s : List Char) (hsplit : splitOnDot token = [h, p, s]) :
    verifyJWT cdc token secret
      = match b64UrlDecode s with
        | none => none
        | some signatureBytes =>
          if cdc.hmac secret ((h ++ '.' :: p).map Char.toNat) = signatureBytes then
            match b64UrlDecode p with
            | none => none
            | some payloadBytes => cdc.parsePayload payloadBytes
          else none := by
  unfold verifyJWT
  rw [hsplit]

/-- The dot-split of a `createJWT` token recovers its three segments. -/
theorem splitOnDot_createJWT (cdc : Codec) (payload : Payload) (secret : Bytes)
    (hstr : ByteOk (cdc.stringifyPayload payload))
    (hsig : ByteOk (cdc.hmac secret
      ((b64UrlEncode headerBytes ++ '.' :: b64UrlEncode (cdc.stringifyPayload payload)).map
        Char.toNat))) :
    splitOnDot (createJWT cdc payload secret)
      = [b64UrlEncode headerBytes, b64UrlEncode (cdc.stringifyPayload payload),
         b64UrlEncode (cdc.hmac secret
           ((b64UrlEncode headerBytes ++ '.' :: b64UrlEncode (cdc.stringifyPayload payload)).map
             Char.toNat))] := by
  unfold createJWT
  have hheader := dot_not_mem_b64UrlEncode headerBytes headerBytes_ok
  have hpayload := dot_not_mem_b64UrlEncode _ hstr
  have hsigdot := dot_not_mem_b64UrlEncode _ hsig
  rw [List.append_assoc]
  rw [show ('.' :: b64UrlEncode (cdc.stringifyPayload payload)) ++ '.' ::
        b64UrlEncode (cdc.hmac secret
          ((b64UrlEncode headerBytes ++ '.' :: b64UrlEncode (cdc.stringifyPayload payload)).map
            Char.toNat))
      = '.' :: (b64UrlEncode (cdc.stringifyPayload payload) ++ '.' ::
        b64UrlEncode (cdc.hmac secret
          ((b64UrlEncode headerBytes ++ '.' :: b64UrlEncode (cdc.stringifyPayload payload)).map
            Char.toNat))) from rfl]
  rw [splitOnDot_append _ _ hheader, splitOnDot_append _ _ hpayload,
    splitOnDot_no_dot _ hsigdot]

/-- Any token minted by `createJWT` verifies under the same secret and yields
exactly the payload bytes round-tripped through the codec. -/
theorem verifyJWT_createJWT (cdc : Codec) (payload : Payload) (secret : Bytes)
    (hstr : ByteOk (cdc.stringifyPayload payload))
    (hsig : ByteOk (cdc.hmac secret
      (((b64UrlEncode headerBytes ++ '.' :: b64UrlEncode (cdc.stringifyPayload payload)).map
        Char.toNat)))) :
    verifyJWT cdc (createJWT cdc payload secret) secret
      = cdc.parsePayload (cdc.stringifyPayload payload) := by
  rw [verifyJWT_eq_of_split cdc _ secret _ _ _ (splitOnDot_createJWT cdc payload secret hstr hsig)]
  rw [b64UrlDecode_b64UrlEncode _ hsig, b64UrlDecode_b64UrlEncode _ hstr]
  simp

/-! ### A concrete executable codec instance

Used to discharge the codec-contract hypotheses on concrete inputs: an
injective payload serializer with a verified inverse (standing in for
`JSON.stringify`/`JSON.parse`) and a (trivial) keyed-hash function.  All its
output bytes lie in `{0, 1}`. -/

/-- Unary encoding of a natural number, terminated by a `0` byte. -/
def encNat (n : Nat) : Bytes := List.replicate n 1 ++ [0]

def decNat : Bytes → Option (Nat × Bytes)
  | [] => none
  | 0 :: r => some (0, r)
  | 1 :: r =>
    match decNat r with
    | some (n, r') => some (n + 1, r')
    | none => none
  | _ => none

theorem decNat_encNat (n : Nat) (r : Bytes) : decNat (encNat n ++ r) = some (n, r) := by
  induction n with
  | zero => rfl
  | succ n ih =>
    simp only [encNat, List.replicate_succ, List.cons_append] at ih ⊢
    simp only [decNat, ih]

def encInt (i : Int) : Bytes := (if i < 0 then 1 else 0) :: encNat i.natAbs

def decInt : Bytes → Option (Int × Bytes)
  | 0 :: r =>
    match decNat r with
    | some (n, r') => some ((n : Int), r')
    | none => none
  | 1 :: r =>
    match decNat r with
    | some (n, r') => some (-(n : Int), r')
    | none => none
  | _ => none

theorem decInt_encInt (i : Int) (r : Bytes) : decInt (encInt i ++ r) = some (i, r) := by
  unfold encInt
  by_cases h : i < 0
  · rw [if_pos h]
    simp only [List.cons_append, decInt, decNat_encNat]
    congr 2
    omega
  · rw [if_neg h]
    simp only [List.cons_append, decInt, decNat_encNat]
    congr 2
    omega

def encChars : List Char → Bytes
  | [] => []
  | c :: cs => encNat c.toNat ++ encChars cs

def decChars : Nat → Bytes → Option (List Char × Bytes)
  | 0, r => some ([], r)
  | n + 1, r =>
    match decNat r with
    | some (v, r') =>
      match decChars n r' with
      | some (cs, r'') => some (Char.ofNat v :: cs, r'')
      | none => none
    | none => none

theorem decChars_encChars (cs : List Char) (r : Bytes) :
    decChars cs.length (encChars cs ++ r) = some (cs, r) := by
  induction cs with
  | nil => rfl
  | cons c cs ih =>
    simp only [encChars, List.length_cons, List.append_assoc]
    simp only [decChars, decNat_encNat, ih, Char.ofNat_toNat]

def encStr (s : String) : Bytes := encNat s.length ++ encChars s.data

def decStr (b : Bytes) : Option (String × Bytes) :=
  match decNat b with
  | some (n, r) =>
    match decChars n r with
    | some (cs, r') => some (String.mk cs, r')
    | none => none
  | none => none

theorem decStr_encStr (s : String) (r : Bytes) : decStr (encStr s ++ r) = some (s, r) := by
  unfold encStr decStr
  rw [List.append_assoc]
  have hlen : s.length = s.data.length := rfl
  simp only [decNat_encNat, hlen, decChars_encChars]

def encOptWith (f : α → Bytes) : Option α → Bytes
  | none => [0]
  | some a => 1 :: f a

def decOptWith (f : Bytes → Option (α × Bytes)) : Bytes → Option (Option α × Bytes)
  | 0 :: r => some (none, r)
  | 1 :: r =>
    match f r with
    | some (a, r') => some (some a, r')
    | none => none
  | _ => none

theorem decOptWith_encOptWith (f : α → Bytes) (g : Bytes → Option (α × Bytes))
    (hfg : ∀ a r, g (f a ++ r) = some (a, r)) (o : Option α) (r : Bytes) :
    decOptWith g (encOptWith f o ++ r) = some (o, r) := by
  cases o with
  | none => rfl
  | some a =>
    simp only [encOptWith, List.cons_append, decOptWith, hfg]

/-- The concrete serializer: field-by-field, in declaration order. -/
def toyStringify (p : Payload) : Bytes :=
  encOptWith encInt p.userId ++ encOptWith encStr p.email ++ encOptWith encInt p.fileId ++
  encOptWith encInt p.groupId ++ encOptWith encStr p.r2Key ++ encOptWith encStr p.fileName ++
  encOptWith encStr p.type ++ encInt p.exp

/-- The concrete parser, the exact inverse of `toyStringify` (rejecting
trailing bytes, as `JSON.parse` would). -/
def toyParse (b : Bytes) : Option Payload :=
  match decOptWith decInt b with
  | none => none
  | some (userId, b) =>
    match decOptWith decStr b with
    | none => none
    | some (email, b) =>
      match decOptWith decInt b with
      | none => none
      | some (fileId, b) =>
        match decOptWith decInt b with
        | none => none
        | some (groupId, b) =>
          match decOptWith decStr b with
          | none => none
          | some (r2Key, b) =>
            match decOptWith decStr b with
            | none => none
            | some (fileName, b) =>
              match decOptWith decStr b with
              | none => none
              | some (type, b) =>
                match decInt b with
                | none => none
                | some (exp, b) =>
                  if b = [] then
                    some { userId := userId, email := email, fileId := fileId,
                           groupId := groupId, r2Key := r2Key, fileName := fileName,
                           type := type, exp := exp }
                  else none

theorem toyParse_toyStringify (p : Payload) : toyParse (toyStringify p) = some p := by
  have hInt := decOptWith_encOptWith encInt decInt (fun a r => decInt_encInt a r)
  have hStr := decOptWith_encOptWith encStr decStr (fun a r => decStr_encStr a r)
  have happ : toyStringify p
      = encOptWith encInt p.userId ++ (encOptWith encStr p.email ++ (encOptWith encInt p.fileId ++
        (encOptWith encInt p.groupId ++ (encOptWith encStr p.r2Key ++
        (encOptWith encStr p.fileName ++ (encOptWith encStr p.type ++ (encInt p.exp ++ []))))))) := by
    simp [toyStringify, List.append_assoc]
  rw [happ]
  unfold toyParse
  simp only [hInt, hStr, decInt_encInt, if_true]

def encNat_mem_lt (n : Nat) : ∀ x ∈ encNat n, x < 256 := by
  intro x hx
  simp only [encNat, List.mem_append, List.mem_replicate, List.mem_singleton] at hx
  rcases hx with ⟨_, rfl⟩ | rfl <;> omega

theorem encInt_ok (i : Int) : ByteOk (encInt i) := by
  intro x hx
  simp only [encInt, List.mem_cons] at hx
  rcases hx with rfl | hx
  · split <;> omega
  · exact encNat_mem_lt _ x hx

theorem encChars_ok (cs : List Char) : ByteOk (encChars cs) := by
  induction cs with
  | nil => intro x hx; simp [encChars] at hx
  | cons c cs ih =>
    intro x hx
    simp only [encChars, List.mem_append] at hx
    rcases hx with hx | hx
    · exact encNat_mem_lt _ x hx
    · exact ih x hx

theorem encStr_ok (s : String) : ByteOk (encStr s) := by
  intro x hx
  simp only [encStr, List.mem_append] at hx
  rcases hx with hx | hx
  · exact encNat_mem_lt _ x hx
  · exact encChars_ok _ x hx

theorem encOptWith_ok (f : α → Bytes) (hf : ∀ a, ByteOk (f a)) (o : Option α) :
    ByteOk (encOptWith f o) := by
  cases o with
  | none => intro x hx; simp only [encOptWith, List.mem_singleton] at hx; omega
  | some a =>
    intro x hx
    simp only [encOptWith, List.mem_cons] at hx
    rcases hx with rfl | hx
    · omega
    · exact hf a x hx

theorem toyStringify_ok (p : Payload) : ByteOk (toyStringify p) := by
  intro x hx
  simp only [toyStringify, List.mem_append] at hx
  rcases hx with ((((((hx | hx) | hx) | hx) | hx) | hx) | hx) | hx
  · exact encOptWith_ok encInt encInt_ok _ x hx
  · exact encOptWith_ok encStr encStr_ok _ x hx
  · exact encOptWith_ok encInt encInt_ok _ x hx
  · exact encOptWith_ok encInt encInt_ok _ x hx
  · exact encOptWith_ok encStr encStr_ok _ x hx
  · exact encOptWith_ok encStr encStr_ok _ x hx
  · exact encOptWith_ok encStr encStr_ok _ x hx
  · exact encInt_ok _ x hx

/-- A concrete `Codec`: the verified toy serializer with a constant keyed
hash (any function works; theorems never rely on hash properties). -/
def toyCodec : Codec :=
  { stringifyPayload := toyStringify
    parsePayload := toyParse
    hmac := fun _ _ => [0] }

theorem toyCodec_hmac_ok (s m : Bytes) : ByteOk (toyCodec.hmac s m) := by
  intro x hx
  simp only [toyCodec, List.mem_singleton] at hx
  omega

theorem toyCodec_parse_stringify (p : Payload) :
    toyCodec.parsePayload (toyCodec.stringifyPayload p) = some p := by
  show toyParse (toyStringify p) = some p
  exact toyParse_toyStringify p

theorem toyCodec_stringify_ok (p : Payload) : ByteOk (toyCodec.stringifyPayload p) := by
  show ByteOk (toyStringify p)
  exact toyStringify_ok p

/-! ### Data model (D1 schema: `Files`, `FileGroups`, `FileGroupItems`)

`expires_at` is the nullable `DATETIME` column added by migration 0003; the
worker stores ISO-8601 strings and the SQL comparisons `expires_at < ?` are
lexicographic on those strings, which matches chronological order.
`upload_time`/`created_at` are DB-assigned defaults, modelled as opaque
strings. -/

structure FileRec where
  id : Int
  user_id : Int
  file_name : String
  file_size : Int
  file_type : String := ""
  r2_key : String
  upload_time : String := ""
  expires_at : Option String := none
deriving DecidableEq, Repr

structure FileGroupRec where
  id : Int
  user_id : Int
  group_name : String
  total_size : Int
  file_count : Int
  group_type : String := "zip"
  created_at : String := ""
  expires_at : Option String := none
deriving DecidableEq, Repr

structure FileGroupItemRec where
  id : Int
  group_id : Int
  file_name : String
  file_size : Int
  file_type : String := ""
  r2_key : String
  upload_time : String := ""
deriving DecidableEq, Repr

/-- The D1 metadata store (the three tables the claims concern). -/
structure D1 where
  files : List FileRec := []
  fileGroups : List FileGroupRec := []
  fileGroupItems : List FileGroupItemRec := []
deriving DecidableEq, Repr

/-- An R2 object: opaque body plus the stored `httpMetadata.contentType`. -/
structure R2Obj where
  body : String
  contentType : Option String := none
deriving DecidableEq, Repr

/-- The R2 bucket, as a key-to-object association list. -/
structure Bucket where
  objects : List (String × R2Obj) := []
deriving DecidableEq, Repr

def bucketGet (bk : Bucket) (key : String) : Option R2Obj :=
  (bk.objects.find? (fun kv => kv.1 == key)).map (fun kv => kv.2)

/-- R2 `delete` (idempotent: removing an absent key is a no-op). -/
def bucketDelete (bk : Bucket) (key : String) : Bucket :=
  { objects := bk.objects.filter (fun kv => kv.1 != key) }

/-- JS `a || b` for an optional string: `b` when absent *or empty*. -/
def jsOr (o : Option String) (d : String) : String :=
  match o with
  | some s => if s = "" then d else s
  | none => d

/-- Next `AUTOINCREMENT` id for `FileGroupItems`. -/
def nextItemId (db : D1) : Int :=
  (db.fileGroupItems.map FileGroupItemRec.id).foldr max 0 + 1

/-- Next `AUTOINCREMENT` id for `Files`. -/
def nextFileId (db : D1) : Int :=
  (db.files.map FileRec.id).foldr max 0 + 1

/-! ### Auth middleware -/

inductive AuthResult
  | unauthorized
  | authorized (user : Payload)
deriving DecidableEq, Repr

/-- Source `authMiddleware`: requires a `Bearer ` Authorization header,
verifies the JWT, then rejects when `payload.exp < now` (strictly). -/
def authCheck (cdc : Codec) (secret : Bytes) (authHeader : Option (List Char))
    (now : Int) : AuthResult :=
  match authHeader with
  | none => .unauthorized
  | some h =>
    match h with
    | 'B' :: 'e' :: 'a' :: 'r' :: 'e' :: 'r' :: ' ' :: token =>
      match verifyJWT cdc token secret with
      | none => .unauthorized
      | some payload =>
        if payload.exp < now then .unauthorized else .authorized payload
    | _ => .unauthorized

/-! ### Download resolver (`GET /api/download/:token`, unauthenticated) -/

inductive DownloadResp
  /-- 401: `verifyJWT` returned null. -/
  | invalidToken
  /-- 200 via the `type === 'file-download'` branch: body, content type, and
  attachment name come from the blob and the token payload alone. -/
  | fileBlob (body : String) (contentType : String) (fileName : String)
  /-- 404: the blob is absent from the bucket. -/
  | blobMissing
  /-- 404: the `Files` row is absent. -/
  | fileRowMissing
  /-- 200 via the `Files`-table branch. -/
  | dbFileBlob (body : String) (contentType : String) (fileName : String) (size : Int)
  /-- 500: the catch-all (e.g. binding `undefined` into the query). -/
  | serverError
deriving DecidableEq, Repr

/-- Source `GET /api/download/:token`.  The route has **no** auth middleware;
the request's Authorization header is accepted as an argument and never
consulted, and no clock is ever consulted. -/
def downloadHandler (cdc : Codec) (db : D1) (bucket : Bucket) (secret : Bytes)
    (authHeader : Option (List Char)) (token : List Char) : DownloadResp :=
  match verifyJWT cdc token secret with
  | none => .invalidToken
  | some payload =>
    if payload.type = some "file-download" then
      match payload.r2Key with
      | none => .serverError
      | some r2Key =>
        match bucketGet bucket r2Key with
        | none => .blobMissing
        | some obj =>
          .fileBlob obj.body (jsOr obj.contentType "application/octet-stream")
            (jsOr payload.fileName "download")
    else
      match payload.fileId with
      | none => .serverError
      | some fileId =>
        match db.files.find? (fun f => f.id == fileId) with
        | none => .fileRowMissing
        | some file =>
          match bucketGet bucket (jsOr payload.r2Key file.r2_key) with
          | none => .blobMissing
          | some obj =>
            .dbFileBlob obj.body (jsOr (some file.file_type) "application/octet-stream")
              file.file_name file.file_size

/-! ### Share-link issuance (`POST /api/files/:id/generate-download-url`) -/

inductive GenUrlResp
  /-- 400: `parseInt` gave `NaN` or `0` (both falsy). -/
  | invalidFileId
  /-- 404: no `Files` row with this id owned by the caller. -/
  | notOwnedOrMissing
  /-- 200: the minted share token plus the display name echoed back. -/
  | ok (token : List Char) (fileName : String)
deriving DecidableEq, Repr

/-- Seconds in the hard-coded "permanent" ttl (100 years). -/
def permanentTtl : Int := 60 * 60 * 24 * 365 * 100

/-- Source `POST /api/files/:id/generate-download-url` (after
`authMiddleware`): checks ownership in the `Files` query itself, then mints a
token whose payload is `{fileId, r2Key, exp: now + 100y}`. -/
def generateDownloadUrl (cdc : Codec) (db : D1) (secret : Bytes) (userId : Int)
    (fileId : Option Int) (now : Int) : GenUrlResp :=
  match fileId with
  | none => .invalidFileId
  | some fid =>
    if fid = 0 then .invalidFileId
    else
      match db.files.find? (fun f => f.id == fid && f.user_id == userId) with
      | none => .notOwnedOrMissing
      | some file =>
        .ok (createJWT cdc
              { fileId := some file.id, r2Key := some file.r2_key,
                exp := now + permanentTtl } secret)
            file.file_name

/-- The issuance pattern shared by every token-minting endpoint:
`createJWT({...claims, exp: Math.floor(Date.now()/1000) + ttl}, secret)`. -/
def issueToken (cdc : Codec) (claims : Payload) (ttl : Int) (now : Int)
    (secret : Bytes) : List Char :=
  createJWT cdc { claims with exp := now + ttl } secret

/-! ### Upload orchestrator

R2 put / multipart operations are performed by the platform binding; their
outcomes are environmental, so the handlers take an `Adapter` of outcome
functions (success/failure per key, etag per part).  The handlers below are
translated from `POST /api/files/upload-direct`,
`POST /api/file-groups/:groupId/items/chunked/upload` and
`POST /api/file-groups/:groupId/items/chunked/complete`. -/

/-- Outcomes of the R2 adapter calls, as environment-supplied functions. -/
structure Adapter where
  /-- Whether `BUCKET.put(key, ...)` succeeds. -/
  putOk : String → Bool
  /-- `uploadPart(partNumber, bytes)` on `(r2Key, uploadId)` given the chunk
  size: `some etag` on success, `none` when the call throws. -/
  uploadPartResult : String → String → Int → Int → Option String
  /-- Whether `multipartUpload.complete(parts)` on `(r2Key, uploadId)`
  succeeds for the supplied `(partNumber, etag)` list. -/
  completeOk : String → String → List (Int × String) → Bool

/-- A browser `File` as the handlers see it: name, byte size, MIME type. -/
structure BlobFile where
  name : String
  size : Int
  type : String := ""
deriving DecidableEq, Repr

/-- `truthy` string extraction: JS `!s` is true for both absent and empty. -/
def jsTruthy (o : Option String) : Option String :=
  match o with
  | some s => if s = "" then none else some s
  | none => none

structure UploadForm where
  file : Option BlobFile := none
  r2Key : Option String := none
  expiresInDays : Int := 0
deriving Repr

inductive UploadResp
  | noFile
  | tooLarge
  | okFile (id : Int)
  | serverError
deriving DecidableEq, Repr

/-- The 100 MB single-request ceiling of the direct upload path. -/
def maxDirectSize : Int := 100 * 1024 * 1024

/-- Source `POST /api/files/upload-direct`: presence check, 100 MB ceiling,
expiry computation, `BUCKET.put`, and only then the `Files` insert.
`generateR2Key`'s timestamp/uuid output and the `Date` arithmetic for
`expiresAt` are environmental, passed in as `genKey` and `addDaysIso`. -/
def uploadDirect (ad : Adapter) (addDaysIso : Int → String) (genKey : String)
    (db : D1) (userId : Int) (form : UploadForm) : D1 × UploadResp :=
  match form.file with
  | none => (db, .noFile)
  | some f =>
    if f.size > maxDirectSize then (db, .tooLarge)
    else
      let expiresAt : Option String :=
        if form.expiresInDays > 0 then some (addDaysIso form.expiresInDays) else none
      let key := jsOr form.r2Key genKey
      if ad.putOk key then
        ({ db with files := db.files ++
            [{ id := nextFileId db, user_id := userId, file_name := f.name,
               file_size := f.size, file_type := jsOr (some f.type) "application/octet-stream",
               r2_key := key, expires_at := expiresAt }] },
         .okFile (nextFileId db))
      else (db, .serverError)

structure ChunkForm where
  chunk : Option BlobFile := none
  uploadId : Option String := none
  r2Key : Option String := none
  /-- `parseInt(formData.get('partNumber'))`; `none` models `NaN`. -/
  partNumber : Option Int := none
deriving Repr

inductive ChunkResp
  | groupNotFound
  | missingParams
  | okPart (partNumber : Int) (etag : String)
  | serverError
deriving DecidableEq, Repr

/-- Source `POST /api/file-groups/:groupId/items/chunked/upload`: ownership
lookup, presence check on `chunk`/`uploadId`/`r2Key`/`partNumber`, then the
part is forwarded to the adapter unconditionally — the handler contains **no
size check of any kind** on the chunk. -/
def uploadChunk (ad : Adapter) (db : D1) (userId : Int) (groupId : Int)
    (form : ChunkForm) : ChunkResp :=
  match db.fileGroups.find? (fun g => g.id == groupId && g.user_id == userId) with
  | none => .groupNotFound
  | some _ =>
    match form.chunk, jsTruthy form.uploadId, jsTruthy form.r2Key, form.partNumber with
    | some chunk, some uploadId, some r2Key, some pn =>
      match ad.uploadPartResult r2Key uploadId pn chunk.size with
      | some etag => .okPart pn etag
      | none => .serverError
    | _, _, _, _ => .missingParams

structure CompleteBody where
  uploadId : String
  r2Key : String
  fileName : String
  fileSize : Int
  parts : List (Int × String)
deriving Repr

inductive CompleteResp
  | groupNotFound
  | okItem (itemId : Int) (fileName : String) (fileSize : Int)
  | serverError
deriving DecidableEq, Repr

/-- The `FileGroupItems` row the complete handler inserts. -/
def newGroupItem (db : D1) (groupId : Int) (body : CompleteBody) : FileGroupItemRec :=
  { id := nextItemId db, group_id := groupId, file_name := body.fileName,
    file_size := body.fileSize, file_type := "application/octet-stream",
    r2_key := body.r2Key }

/-- Source `POST /api/file-groups/:groupId/items/chunked/complete`: ownership
lookup, then `multipartUpload.complete(body.parts)` with the client-supplied
parts list **as is** — the handler never validates that the part numbers
cover `1..totalChunks` (indeed `totalChunks` is not even sent) — and only on
adapter success inserts the `FileGroupItems` row. -/
def completeChunked (ad : Adapter) (db : D1) (userId : Int) (groupId : Int)
    (body : CompleteBody) : D1 × CompleteResp :=
  match db.fileGroups.find? (fun g => g.id == groupId && g.user_id == userId) with
  | none => (db, .groupNotFound)
  | some _ =>
    if ad.completeOk body.r2Key body.uploadId body.parts then
      ({ db with fileGroupItems := db.fileGroupItems ++ [newGroupItem db groupId body] },
       .okItem (nextItemId db) body.fileName body.fileSize)
    else (db, .serverError)

/-! ### Expiration sweeper (`POST /api/admin/cleanup`)

The handler wraps the whole run in a single `try`; a throwing `BUCKET.delete`
aborts the remainder and the response is the generic 500.  R2 delete failures
are environmental, injected as `r2Fail` (the D1 statements are modelled as
non-throwing). -/

/-- Code-point lexicographic order on character lists: SQLite's ordering of
the TEXT column `expires_at` against the bound ISO timestamp, which on these
ASCII strings coincides with byte order and with chronological order. -/
def charListLt : List Char → List Char → Bool
  | [], [] => false
  | [], _ :: _ => true
  | _ :: _, [] => false
  | a :: as, b :: bs =>
    if a.toNat < b.toNat then true
    else if b.toNat < a.toNat then false
    else charListLt as bs

/-- SQL `a < b` on TEXT values. -/
def sqlStrLt (a b : String) : Bool := charListLt a.data b.data

/-- The SQL predicate `expires_at IS NOT NULL AND expires_at < ?`. -/
def isExpired (e : Option String) (now : String) : Bool :=
  match e with
  | some t => sqlStrLt t now
  | none => false

def expiredFiles (db : D1) (now : String) : List FileRec :=
  db.files.filter (fun f => isExpired f.expires_at now)

def expiredGroups (db : D1) (now : String) : List FileGroupRec :=
  db.fileGroups.filter (fun g => isExpired g.expires_at now)

/-- Phase 1 loop: per expired file, `BUCKET.delete(r2_key)` then
`DELETE FROM Files WHERE id = ?`, counting; a throw stops the loop with the
abort flag set (state mutated so far persists). -/
def cleanupFiles (r2Fail : String → Bool) :
    List FileRec → D1 → Bucket → Nat → D1 × Bucket × Nat × Bool
  | [], db, bk, n => (db, bk, n, false)
  | f :: rest, db, bk, n =>
    if r2Fail f.r2_key then (db, bk, n, true)
    else
      cleanupFiles r2Fail rest
        { db with files := db.files.filter (fun g => g.id != f.id) }
        (bucketDelete bk f.r2_key) (n + 1)

/-- Inner loop of phase 2: delete each member item's blob. -/
def deleteItemBlobs (r2Fail : String → Bool) :
    List FileGroupItemRec → Bucket → Bucket × Bool
  | [], bk => (bk, false)
  | it :: rest, bk =>
    if r2Fail it.r2_key then (bk, true)
    else deleteItemBlobs r2Fail rest (bucketDelete bk it.r2_key)

/-- Phase 2 loop: per expired group, enumerate its items, delete their blobs,
then `DELETE FROM FileGroupItems WHERE group_id = ?` and
`DELETE FROM FileGroups WHERE id = ?`, counting. -/
def cleanupGroups (r2Fail : String → Bool) :
    List FileGroupRec → D1 → Bucket → Nat → D1 × Bucket × Nat × Bool
  | [], db, bk, n => (db, bk, n, false)
  | g :: rest, db, bk, n =>
    match deleteItemBlobs r2Fail (db.fileGroupItems.filter (fun it => it.group_id == g.id)) bk with
    | (bk', true) => (db, bk', n, true)
    | (bk', false) =>
      cleanupGroups r2Fail rest
        { db with
          fileGroupItems := db.fileGroupItems.filter (fun it => it.group_id != g.id),
          fileGroups := db.fileGroups.filter (fun h => h.id != g.id) }
        bk' (n + 1)

inductive CleanupResp
  /-- 200 with `{deletedFiles, deletedGroups}`. -/
  | ok (deletedFiles : Nat) (deletedGroups : Nat)
  /-- 500 `清理失败`: the catch swallowed a throw; no counts reported. -/
  | serverError
deriving DecidableEq, Repr

structure CleanupOut where
  db : D1
  bucket : Bucket
  resp : CleanupResp
deriving DecidableEq, Repr

/-- Source `POST /api/admin/cleanup`: select expired `Files`, loop-delete;
select expired `FileGroups`, loop-delete; one `try` around everything. -/
def adminCleanup (r2Fail : String → Bool) (db : D1) (bk : Bucket)
    (now : String) : CleanupOut :=
  match cleanupFiles r2Fail (expiredFiles db now) db bk 0 with
  | (db1, bk1, _, true) => ⟨db1, bk1, .serverError⟩
  | (db1, bk1, nf, false) =>
    match cleanupGroups r2Fail (expiredGroups db1 now) db1 bk1 0 with
    | (db2, bk2, _, true) => ⟨db2, bk2, .serverError⟩
    | (db2, bk2, ng, false) => ⟨db2, bk2, .ok nf ng⟩

/-- An environment in which no R2 delete fails. -/
def noFail : String → Bool := fun _ => false

/-! ### Concrete fixtures for witnesses and counterexamples -/

/-- A share-token payload whose `exp` (epoch second 1) is long past. -/
def plExpired : Payload :=
  { r2Key := some "k", fileName := some "f", type := some "file-download", exp := 1 }

/-- A token for `plExpired` minted with secret byte `[5]`. -/
def tokenExpired : List Char := createJWT toyCodec plExpired [5]

/-- A bucket holding the blob `plExpired` points at. -/
def bucket0 : Bucket :=
  { objects := [("k", { body := "data", contentType := some "text/plain" })] }

/-- A `Files` table with one row owned by user 1. -/
def dbOwner : D1 :=
  { files := [{ id := 10, user_id := 1, file_name := "name", file_size := 5, r2_key := "rk" }] }

/-- A `FileGroups` table with one group owned by user 1. -/
def dbGroup : D1 :=
  { fileGroups := [{ id := 1, user_id := 1, group_name := "g", total_size := 30, file_count := 3 }] }

/-- An adapter on which every R2 operation succeeds. -/
def adapterOk : Adapter :=
  { putOk := fun _ => true
    uploadPartResult := fun _ _ _ _ => some "etag"
    completeOk := fun _ _ _ => true }

/-- An adapter on which every R2 operation fails. -/
def adapterFail : Adapter :=
  { putOk := fun _ => false
    uploadPartResult := fun _ _ _ _ => none
    completeOk := fun _ _ _ => false }

/-- A complete request for 3 declared chunks whose parts list misses part 2. -/
def bodyGap : CompleteBody :=
  { uploadId := "u", r2Key := "gk", fileName := "f.bin", fileSize := 30,
    parts := [(1, "e1"), (3, "e3")] }

/-- `verifyJWT` accepts `tokenExpired` (signature is valid; `verifyJWT` never
looks at `exp`). -/
theorem verify_tokenExpired : verifyJWT toyCodec tokenExpired [5] = some plExpired := by
  unfold tokenExpired
  rw [verifyJWT_createJWT toyCodec plExpired [5] (toyCodec_stringify_ok _) (toyCodec_hmac_ok _ _)]
  exact toyCodec_parse_stringify _

/-- C3: for every claims object and every ttl > 0, verifying a token
immediately after issuing it with those claims (same server secret) succeeds
and returns the claims unchanged (with `exp` set to `now + ttl` as issuance
wrote it).  The codec hypotheses are the `JSON.parse`/`JSON.stringify`
inverse contract and the fact that serializer and HMAC emit genuine bytes. -/
theorem c3_verify_issue_roundtrip (cdc : Codec) (secret : Bytes) (claims : Payload)
    (ttl now : Int) (httl : 0 < ttl)
    (hparse : ∀ p, cdc.parsePayload (cdc.stringifyPayload p) = some p)
    (hstr : ∀ p, ByteOk (cdc.stringifyPayload p))
    (hhmac : ∀ s m, ByteOk (cdc.hmac s m)) :
    verifyJWT cdc (issueToken cdc claims ttl now secret) secret
      = some { claims with exp := now + ttl } := by
  unfold issueToken
  rw [verifyJWT_createJWT cdc _ secret (hstr _) (hhmac _ _)]
  exact hparse _

/-- Witness for C3 at a concrete claims object, ttl 3, clock 100. -/
theorem c3_witness :
    (0 : Int) < 3
    ∧ verifyJWT toyCodec
        (issueToken toyCodec { r2Key := some "k", type := some "file-download" } 3 100 [5]) [5]
      = some { r2Key := some "k", type := some "file-download", exp := 103 } :=
  ⟨by norm_num,
   c3_verify_issue_roundtrip toyCodec [5] { r2Key := some "k", type := some "file-download" }
     3 100 (by norm_num) toyCodec_parse_stringify toyCodec_stringify_ok toyCodec_hmac_ok⟩

/-- C9: token verification is total and fails closed to `null`: a token whose
dot-split is not exactly three segments, whose signature segment is not valid
base64, whose signature does not match the keyed hash, or whose payload
segment fails to decode or parse, all yield `none` — never an exception
(totality itself is intrinsic: `verifyJWT` is a function into `Option`). -/
theorem c9_verifyJWT_failure_modes :
    (∀ (cdc : Codec) (secret : Bytes) (token : List Char),
        (splitOnDot token).length ≠ 3 → verifyJWT cdc token secret = none)
  ∧ (∀ (cdc : Codec) (secret : Bytes) (token h p s : List Char),
        splitOnDot token = [h, p, s] → b64UrlDecode s = none →
        verifyJWT cdc token secret = none)
  ∧ (∀ (cdc : Codec) (secret : Bytes) (token h p s : List Char) (sig : Bytes),
        splitOnDot token = [h, p, s] → b64UrlDecode s = some sig →
        cdc.hmac secret ((h ++ '.' :: p).map Char.toNat) ≠ sig →
        verifyJWT cdc token secret = none)
  ∧ (∀ (cdc : Codec) (secret : Bytes) (token h p s : List Char) (sig : Bytes),
        splitOnDot token = [h, p, s] → b64UrlDecode s = some sig →
        cdc.hmac secret ((h ++ '.' :: p).map Char.toNat) = sig →
        (b64UrlDecode p).bind cdc.parsePayload = none →
        verifyJWT cdc token secret = none) := by
  refine ⟨?_, ?_, ?_, ?_⟩
  · intro cdc secret token hlen
    unfold verifyJWT
    rcases hsplit : splitOnDot token with _ | ⟨a, _ | ⟨b, _ | ⟨c, _ | ⟨d, r⟩⟩⟩⟩ <;>
      first
      | rfl
      | exact absurd (show (splitOnDot token).length = 3 by simp [hsplit]) hlen
  · intro cdc secret token h p s hsplit hdec
    unfold verifyJWT
    rw [hsplit]
    simp only [hdec]
  · intro cdc secret token h p s sig hsplit hdec hne
    unfold verifyJWT
    rw [hsplit]
    simp only [hdec, if_neg hne]
  · intro cdc secret token h p s sig hsplit hdec heq hparse
    unfold verifyJWT
    rw [hsplit]
    simp only [hdec, if_pos heq]
    cases hp : b64UrlDecode p with
    | none => rfl
    | some pb =>
      have hpb : cdc.parsePayload pb = none := by
        rw [hp] at hparse
        simpa using hparse
      exact hpb

/-- Witness for C9: one concrete token per failure mode. -/
theorem c9_witness :
    verifyJWT toyCodec ['a'] [] = none
    ∧ verifyJWT toyCodec ['a', '.', 'b', '.', '!'] [] = none
    ∧ verifyJWT toyCodec ['a', '.', 'b', '.', 'A', 'Q'] [] = none
    ∧ verifyJWT toyCodec ['a', '.', 'A', 'g', '.', 'A', 'A'] [] = none :=
  ⟨c9_verifyJWT_failure_modes.1 toyCodec [] ['a'] (by decide),
   c9_verifyJWT_failure_modes.2.1 toyCodec [] _ ['a'] ['b'] ['!'] (by decide) (by decide),
   c9_verifyJWT_failure_modes.2.2.1 toyCodec [] _ ['a'] ['b'] ['A', 'Q'] [1]
     (by decide) (by decide) (by decide),
   c9_verifyJWT_failure_modes.2.2.2 toyCodec [] _ ['a'] ['A', 'g'] ['A', 'A'] [0]
     (by decide) (by decide) (by decide) (by decide)⟩

/-- The `Authorization: Bearer <token>` header shape `authMiddleware` slices. -/
def bearerHeader (token : List Char) : List Char :=
  'B' :: 'e' :: 'a' :: 'r' :: 'e' :: 'r' :: ' ' :: token

/-- Counterexample to C2: a token whose `exp` (1) is far in the past — in
particular `exp ≤ now` for the clock value 1000 — still *verifies* (the
signature is valid and `verifyJWT` never reads `exp`) and still *redeems* at
the unauthenticated download endpoint, serving the blob instead of failing
with any expiry error; indeed the download handler consults no clock at all. -/
theorem c2_counterexample :
    plExpired.exp ≤ 1000
    ∧ verifyJWT toyCodec tokenExpired [5] = some plExpired
    ∧ downloadHandler toyCodec {} bucket0 [5] none tokenExpired
        = .fileBlob "data" "text/plain" "f" := by
  refine ⟨by norm_num [plExpired], verify_tokenExpired, ?_⟩
  unfold downloadHandler
  rw [verify_tokenExpired]
  rfl

/-- C2 (amended): expiry is enforced nowhere in `verifyJWT` itself and not at
all on the unauthenticated download endpoint; it is enforced only by
`authMiddleware` on authenticated routes, and there strictly (`exp < now`), so
a token at the exact boundary `exp = now` is *accepted*.  A token that
verifies is never rejected by the download endpoint as invalid or expired. -/
theorem c2_amended_expiry_enforcement :
    (∀ (cdc : Codec) (secret : Bytes) (token : List Char) (p : Payload) (now : Int),
        verifyJWT cdc token secret = some p → p.exp < now →
        authCheck cdc secret (some (bearerHeader token)) now = .unauthorized)
  ∧ (∀ (cdc : Codec) (secret : Bytes) (token : List Char) (p : Payload) (now : Int),
        verifyJWT cdc token secret = some p → ¬ p.exp < now →
        authCheck cdc secret (some (bearerHeader token)) now = .authorized p)
  ∧ (∀ (cdc : Codec) (db : D1) (bucket : Bucket) (secret : Bytes)
        (a : Option (List Char)) (token : List Char) (p : Payload),
        verifyJWT cdc token secret = some p →
        downloadHandler cdc db bucket secret a token ≠ .invalidToken) := by
  refine ⟨?_, ?_, ?_⟩
  · intro cdc secret token p now hv hexp
    simp only [authCheck, bearerHeader]
    rw [hv]
    simp [hexp]
  · intro cdc secret token p now hv hexp
    simp only [authCheck, bearerHeader]
    rw [hv]
    simp [hexp]
  · intro cdc db bucket secret a token p hv
    unfold downloadHandler
    rw [hv]
    dsimp only
    split
    · rcases hk : p.r2Key with _ | k
      · simp
      · rcases hbg : bucketGet bucket k with _ | obj <;> simp [hbg]
    · rcases hf : p.fileId with _ | fid
      · simp
      · rcases hfind : db.files.find? (fun f => f.id == fid) with _ | file
        · simp [hfind]
        · rcases hbg : bucketGet bucket (jsOr p.r2Key file.r2_key) with _ | obj <;>
            simp [hfind, hbg]

/-- Witness for the amended C2: `tokenExpired` (exp 1) is rejected by the
auth middleware at clock 1000, accepted at the exact boundary clock 1, and
never treated as invalid by the download endpoint. -/
theorem c2_amended_witness :
    authCheck toyCodec [5] (some (bearerHeader tokenExpired)) 1000 = .unauthorized
    ∧ authCheck toyCodec [5] (some (bearerHeader tokenExpired)) 1 = .authorized plExpired
    ∧ downloadHandler toyCodec {} bucket0 [5] none tokenExpired ≠ .invalidToken :=
  ⟨c2_amended_expiry_enforcement.1 toyCodec [5] tokenExpired plExpired 1000
      verify_tokenExpired (by norm_num [plExpired]),
   c2_amended_expiry_enforcement.2.1 toyCodec [5] tokenExpired plExpired 1
      verify_tokenExpired (by norm_num [plExpired]),
   c2_amended_expiry_enforcement.2.2 toyCodec {} bucket0 [5] none tokenExpired plExpired
      verify_tokenExpired⟩

/-- C8: download tokens are pure bearer credentials.  The download endpoint's
outcome is independent of the request's authentication context (the route has
no auth middleware and the handler never reads the Authorization header), and
ownership is checked only at issuance: `generate-download-url` returns a token
only when the `Files` row is owned by the calling user. -/
theorem c8_bearer_token_independence :
    (∀ (cdc : Codec) (db : D1) (bucket : Bucket) (secret : Bytes)
        (a1 a2 : Option (List Char)) (token : List Char),
        downloadHandler cdc db bucket secret a1 token
          = downloadHandler cdc db bucket secret a2 token)
  ∧ (∀ (cdc : Codec) (db : D1) (secret : Bytes) (userId : Int) (fileId : Option Int)
        (now : Int) (token : List Char) (fileName : String),
        generateDownloadUrl cdc db secret userId fileId now = .ok token fileName →
        ∃ f, f ∈ db.files ∧ f.user_id = userId ∧ fileId = some f.id) := by
  constructor
  · intro cdc db bucket secret a1 a2 token
    rfl
  · intro cdc db secret userId fileId now token fileName hok
    rcases fileId with _ | fid
    · simp [generateDownloadUrl] at hok
    · simp only [generateDownloadUrl] at hok
      by_cases h0 : fid = 0
      · rw [if_pos h0] at hok
        exact absurd hok (by simp)
      · rw [if_neg h0] at hok
        rcases hfind : db.files.find? (fun f => f.id == fid && f.user_id == userId)
          with _ | file
        · rw [hfind] at hok
          exact absurd hok (by simp)
        · have hmem := List.mem_of_find?_eq_some hfind
          have hpred := List.find?_some hfind
          simp only [Bool.and_eq_true, beq_iff_eq] at hpred
          exact ⟨file, hmem, hpred.2, by rw [hpred.1]⟩

/-- Witness for C8: redemption with an Authorization header equals redemption
with none, and a concretely issued token implies ownership of the row. -/
theorem c8_witness :
    downloadHandler toyCodec {} bucket0 [5] (some (bearerHeader tokenExpired)) tokenExpired
      = downloadHandler toyCodec {} bucket0 [5] none tokenExpired
    ∧ ∃ f, f ∈ dbOwner.files ∧ f.user_id = 1 ∧ (some 10 : Option Int) = some f.id :=
  ⟨c8_bearer_token_independence.1 toyCodec {} bucket0 [5]
      (some (bearerHeader tokenExpired)) none tokenExpired,
   c8_bearer_token_independence.2 toyCodec dbOwner [5] 1 (some 10) 100
      (createJWT toyCodec { fileId := some 10, r2Key := some "rk",
                            exp := 100 + permanentTtl } [5]) "name" rfl⟩

/-- C10: for a verified token whose payload `type` is `'file-download'`, the
download endpoint's result is a function of the bucket and the token payload
(`r2Key`, `fileName`) alone — the metadata store is never consulted, so for
*every* store contents (e.g. after the `FileGroupItems` row is deleted) the
response is the same blob. -/
theorem c10_file_download_no_db_lookup (cdc : Codec) (bucket : Bucket) (secret : Bytes)
    (a : Option (List Char)) (token : List Char) (p : Payload)
    (hv : verifyJWT cdc token secret = some p)
    (ht : p.type = some "file-download") :
    ∀ db : D1, downloadHandler cdc db bucket secret a token
      = match p.r2Key with
        | none => DownloadResp.serverError
        | some r2Key =>
          match bucketGet bucket r2Key with
          | none => DownloadResp.blobMissing
          | some obj => DownloadResp.fileBlob obj.body
              (jsOr obj.contentType "application/octet-stream") (jsOr p.fileName "download") := by
  intro db
  unfold downloadHandler
  rw [hv]
  dsimp only
  rw [if_pos ht]

/-- Witness for C10: `tokenExpired` redeems to the same blob over a non-empty
store and over the empty store (row deleted). -/
theorem c10_witness :
    downloadHandler toyCodec dbOwner bucket0 [5] none tokenExpired
      = downloadHandler toyCodec {} bucket0 [5] none tokenExpired := by
  rw [c10_file_download_no_db_lookup toyCodec bucket0 [5] none tokenExpired plExpired
        verify_tokenExpired rfl dbOwner,
      c10_file_download_no_db_lookup toyCodec bucket0 [5] none tokenExpired plExpired
        verify_tokenExpired rfl {}]

/-- Counterexample to C1: completing with parts `{1, 3}` of 3 declared chunks
(part 2 missing) does not fail with any incomplete-part-set error — the
handler performs no such validation (it never even receives `totalChunks`) —
and the `FileGroupItems` metadata row *is* written once the adapter accepts
the supplied list, which the spec's own adapter contract (caller supplies the
set of parts it intends to keep) says it does. -/
theorem c1_counterexample :
    (completeChunked adapterOk dbGroup 1 1 bodyGap).2 = .okItem 1 "f.bin" 30
    ∧ (completeChunked adapterOk dbGroup 1 1 bodyGap).1.fileGroupItems
        = [newGroupItem dbGroup 1 bodyGap] :=
  ⟨rfl, rfl⟩

/-- C1 (amended): the chunked-complete endpoint validates nothing about the
part set.  For an owned group, whatever parts list the client supplies is
forwarded verbatim: on adapter success the `FileGroupItems` row is written
(gaps and all), and on adapter failure the error is the generic 500 with no
row written; no `IncompletePartSet` outcome exists. -/
theorem c1_amended_no_partset_validation (ad : Adapter) (db : D1)
    (userId groupId : Int) (body : CompleteBody)
    (hown : (db.fileGroups.find? (fun g => g.id == groupId && g.user_id == userId)).isSome) :
    (ad.completeOk body.r2Key body.uploadId body.parts = true →
      completeChunked ad db userId groupId body
        = ({ db with fileGroupItems := db.fileGroupItems ++ [newGroupItem db groupId body] },
           .okItem (nextItemId db) body.fileName body.fileSize))
    ∧ (ad.completeOk body.r2Key body.uploadId body.parts = false →
      completeChunked ad db userId groupId body = (db, .serverError)) := by
  rcases hfind : db.fileGroups.find? (fun g => g.id == groupId && g.user_id == userId)
    with _ | grp
  · rw [hfind] at hown
    exact absurd hown (by simp)
  · constructor
    · intro hcomp
      unfold completeChunked
      rw [hfind]
      simp [hcomp]
    · intro hcomp
      unfold completeChunked
      rw [hfind]
      simp [hcomp]

/-- Witness for the amended C1: the gapped parts list from the
counterexample, against a succeeding and a failing adapter. -/
theorem c1_amended_witness :
    completeChunked adapterOk dbGroup 1 1 bodyGap
      = ({ dbGroup with fileGroupItems := [newGroupItem dbGroup 1 bodyGap] },
         .okItem 1 "f.bin" 30)
    ∧ completeChunked adapterFail dbGroup 1 1 bodyGap = (dbGroup, .serverError) :=
  ⟨(c1_amended_no_partset_validation adapterOk dbGroup 1 1 bodyGap (by decide)).1 rfl,
   (c1_amended_no_partset_validation adapterFail dbGroup 1 1 bodyGap (by decide)).2 rfl⟩

/-- C6: on both upload paths the metadata row is written only after the
object store confirms: if the adapter `put`/`complete` fails, the store state
is unchanged (no row); if it succeeds, exactly the new row is appended. -/
theorem c6_metadata_after_adapter_success :
    (∀ (ad : Adapter) (addDaysIso : Int → String) (genKey : String) (db : D1)
        (userId : Int) (form : UploadForm),
        ad.putOk (jsOr form.r2Key genKey) = false →
        (uploadDirect ad addDaysIso genKey db userId form).1 = db)
  ∧ (∀ (ad : Adapter) (db : D1) (userId groupId : Int) (body : CompleteBody),
        ad.completeOk body.r2Key body.uploadId body.parts = false →
        (completeChunked ad db userId groupId body).1 = db)
  ∧ (∀ (ad : Adapter) (addDaysIso : Int → String) (genKey : String) (db : D1)
        (userId : Int) (form : UploadForm) (f : BlobFile),
        form.file = some f → ¬ f.size > maxDirectSize →
        ad.putOk (jsOr form.r2Key genKey) = true →
        (uploadDirect ad addDaysIso genKey db userId form).1.files
          = db.files ++
            [{ id := nextFileId db, user_id := userId, file_name := f.name,
               file_size := f.size, file_type := jsOr (some f.type) "application/octet-stream",
               r2_key := jsOr form.r2Key genKey,
               expires_at := if form.expiresInDays > 0
                 then some (addDaysIso form.expiresInDays) else none }])
  ∧ (∀ (ad : Adapter) (db : D1) (userId groupId : Int) (body : CompleteBody),
        (db.fileGroups.find? (fun g => g.id == groupId && g.user_id == userId)).isSome →
        ad.completeOk body.r2Key body.uploadId body.parts = true →
        (completeChunked ad db userId groupId body).1.fileGroupItems
          = db.fileGroupItems ++ [newGroupItem db groupId body]) := by
  refine ⟨?_, ?_, ?_, ?_⟩
  · intro ad addDaysIso genKey db userId form hput
    unfold uploadDirect
    rcases form.file with _ | f
    · rfl
    · dsimp only
      by_cases hsz : f.size > maxDirectSize
      · rw [if_pos hsz]
      · rw [if_neg hsz, hput]
        simp
  · intro ad db userId groupId body hcomp
    rcases hfind : db.fileGroups.find? (fun g => g.id == groupId && g.user_id == userId)
      with _ | grp
    · unfold completeChunked
      rw [hfind]
    · unfold completeChunked
      rw [hfind]
      simp [hcomp]
  · intro ad addDaysIso genKey db userId form f hf hsz hput
    unfold uploadDirect
    rw [hf]
    dsimp only
    rw [if_neg hsz, hput]
    simp
  · intro ad db userId groupId body hown hcomp
    rcases hfind : db.fileGroups.find? (fun g => g.id == groupId && g.user_id == userId)
      with _ | grp
    · rw [hfind] at hown
      exact absurd hown (by simp)
    · unfold completeChunked
      rw [hfind]
      simp only [hcomp, if_true]

/-- Witness for C6 at concrete inputs: failing and succeeding adapters on
both the direct path and the chunked-complete path. -/
theorem c6_witness :
    (uploadDirect adapterFail (fun _ => "iso") "gen" dbOwner 1
        { file := some { name := "n", size := 5 } }).1 = dbOwner
    ∧ (completeChunked adapterFail dbGroup 1 1 bodyGap).1 = dbGroup
    ∧ (uploadDirect adapterOk (fun _ => "iso") "gen" dbOwner 1
        { file := some { name := "n", size := 5 } }).1.files
        = dbOwner.files ++
          [{ id := nextFileId dbOwner, user_id := 1, file_name := "n",
             file_size := 5, file_type := jsOr (some "") "application/octet-stream",
             r2_key := jsOr none "gen",
             expires_at := if (0 : Int) > 0 then some ((fun (_ : Int) => "iso") 0) else none }]
    ∧ (completeChunked adapterOk dbGroup 1 1 bodyGap).1.fileGroupItems
        = dbGroup.fileGroupItems ++ [newGroupItem dbGroup 1 bodyGap] :=
  ⟨c6_metadata_after_adapter_success.1 adapterFail (fun _ => "iso") "gen" dbOwner 1
      { file := some { name := "n", size := 5 } } rfl,
   c6_metadata_after_adapter_success.2.1 adapterFail dbGroup 1 1 bodyGap rfl,
   c6_metadata_after_adapter_success.2.2.1 adapterOk (fun _ => "iso") "gen" dbOwner 1
      { file := some { name := "n", size := 5 } } { name := "n", size := 5 }
      rfl (by norm_num [maxDirectSize]) rfl,
   c6_metadata_after_adapter_success.2.2.2 adapterOk dbGroup 1 1 bodyGap (by decide) rfl⟩

/-- A 200 MB chunk — twice the direct-path ceiling. -/
def hugeChunkForm : ChunkForm :=
  { chunk := some { name := "c", size := 209715200 }, uploadId := some "u",
    r2Key := some "gk", partNumber := some 1 }

/-- Counterexample to C7: a 200 MB chunk (any size, in fact) sails through
the chunked-upload endpoint and is forwarded to the adapter — there is no
per-chunk byte ceiling and no `PayloadTooLarge` outcome on this route. -/
theorem c7_counterexample :
    (209715200 : Int) > maxDirectSize
    ∧ uploadChunk adapterOk dbGroup 1 1 hugeChunkForm = .okPart 1 "etag" :=
  ⟨by norm_num [maxDirectSize], rfl⟩

/-- C7 (amended): the chunk-upload endpoint performs only ownership and
presence validation; a chunk of *any* size is forwarded to the adapter and
the response is exactly the adapter's outcome.  (A 100 MB ceiling exists only
on the non-chunked upload endpoints.) -/
theorem c7_amended_no_chunk_ceiling (ad : Adapter) (db : D1) (userId groupId : Int)
    (name uploadId r2Key : String) (pn size : Int)
    (hown : (db.fileGroups.find? (fun g => g.id == groupId && g.user_id == userId)).isSome)
    (hu : uploadId ≠ "") (hk : r2Key ≠ "") :
    uploadChunk ad db userId groupId
      { chunk := some { name := name, size := size }, uploadId := some uploadId,
        r2Key := some r2Key, partNumber := some pn }
      = match ad.uploadPartResult r2Key uploadId pn size with
        | some etag => ChunkResp.okPart pn etag
        | none => ChunkResp.serverError := by
  rcases hfind : db.fileGroups.find? (fun g => g.id == groupId && g.user_id == userId)
    with _ | grp
  · rw [hfind] at hown
    exact absurd hown (by simp)
  · unfold uploadChunk
    rw [hfind]
    simp only [jsTruthy, if_neg hu, if_neg hk]

/-- Witness for the amended C7: the 200 MB chunk is forwarded and succeeds. -/
theorem c7_amended_witness :
    uploadChunk adapterOk dbGroup 1 1
      { chunk := some { name := "c", size := 209715200 }, uploadId := some "u",
        r2Key := some "gk", partNumber := some 1 }
      = match adapterOk.uploadPartResult "gk" "u" 1 209715200 with
        | some etag => ChunkResp.okPart 1 etag
        | none => ChunkResp.serverError :=
  c7_amended_no_chunk_ceiling adapterOk dbGroup 1 1 "c" "u" "gk" 1 209715200
    (by decide) (by decide) (by decide)

/-! ### Sweeper fixtures and lemmas -/

/-- Two long-expired files. -/
def dbTwoExpired : D1 :=
  { files := [
      { id := 1, user_id := 1, file_name := "a", file_size := 1, r2_key := "ka",
        expires_at := some "2020-01-01" },
      { id := 2, user_id := 1, file_name := "b", file_size := 1, r2_key := "kb",
        expires_at := some "2020-01-02" }] }

/-- One long-expired file. -/
def dbOneExpired : D1 :=
  { files := [
      { id := 1, user_id := 1, file_name := "a", file_size := 1, r2_key := "ka",
        expires_at := some "2020-01-01" }] }

/-- The blobs backing the expired rows. -/
def bucketAB : Bucket :=
  { objects := [("ka", { body := "A" }), ("kb", { body := "B" })] }

/-- An environment in which deleting blob `ka` throws. -/
def failKa : String → Bool := fun k => k == "ka"

/-- If any candidate in the list has a failing blob delete, the file loop
aborts (the abort flag of its result is set). -/
theorem cleanupFiles_abort_of_fail (r2Fail : String → Bool) :
    ∀ (l : List FileRec) (db : D1) (bk : Bucket) (n : Nat),
      (∃ f ∈ l, r2Fail f.r2_key = true) →
      (cleanupFiles r2Fail l db bk n).2.2.2 = true := by
  intro l
  induction l with
  | nil =>
    intro db bk n h
    simp at h
  | cons f rest ih =>
    intro db bk n h
    unfold cleanupFiles
    by_cases hf : r2Fail f.r2_key = true
    · rw [if_pos hf]
    · rw [if_neg hf]
      apply ih
      rcases h with ⟨g, hg, hgf⟩
      rcases List.mem_cons.mp hg with rfl | hg'
      · exact absurd hgf hf
      · exact ⟨g, hg', hgf⟩

/-- Counterexample to C4: with two expired candidates and the *first* blob
delete failing, the run aborts wholesale — the response is the generic 500
with no counts, the second candidate's row is still present, and its blob is
untouched.  The run neither continued nor reported totals. -/
theorem c4_counterexample :
    (adminCleanup failKa dbTwoExpired bucketAB "2025-01-01").resp = .serverError
    ∧ (adminCleanup failKa dbTwoExpired bucketAB "2025-01-01").db = dbTwoExpired
    ∧ (adminCleanup failKa dbTwoExpired bucketAB "2025-01-01").bucket = bucketAB := by
  refine ⟨?_, ?_, ?_⟩ <;> decide

/-- C4 (amended): the cleanup run is wrapped in one `try`/`catch`; a single
failing blob delete among the expired file candidates aborts the whole run
and the endpoint answers the generic 500 failure, reporting no counts. -/
theorem c4_amended_single_failure_aborts (r2Fail : String → Bool) (db : D1)
    (bk : Bucket) (now : String)
    (h : ∃ f ∈ expiredFiles db now, r2Fail f.r2_key = true) :
    (adminCleanup r2Fail db bk now).resp = .serverError := by
  have habort := cleanupFiles_abort_of_fail r2Fail (expiredFiles db now) db bk 0 h
  unfold adminCleanup
  rcases hcf : cleanupFiles r2Fail (expiredFiles db now) db bk 0 with ⟨db1, bk1, n1, ab⟩
  rw [hcf] at habort
  simp only at habort
  subst habort
  rfl

/-- Witness for the amended C4 at the concrete two-file store. -/
theorem c4_amended_witness :
    (adminCleanup failKa dbTwoExpired bucketAB "2025-01-01").resp = .serverError :=
  c4_amended_single_failure_aborts failKa dbTwoExpired bucketAB "2025-01-01" (by decide)

/-- A failure-free file loop never aborts, counts every candidate, deletes
exactly the candidates' rows (by id) from `Files`, and touches no other
table. -/
theorem cleanupFiles_noFail_spec :
    ∀ (l : List FileRec) (db : D1) (bk : Bucket) (n : Nat),
      ∃ bk', cleanupFiles noFail l db bk n
        = ({ db with files := db.files.filter (fun f => l.all (fun g => f.id != g.id)) },
           bk', n + l.length, false) := by
  intro l
  induction l with
  | nil =>
    intro db bk n
    refine ⟨bk, ?_⟩
    simp [cleanupFiles]
  | cons f rest ih =>
    intro db bk n
    obtain ⟨bk', hspec⟩ := ih
      { db with files := db.files.filter (fun g => g.id != f.id) }
      (bucketDelete bk f.r2_key) (n + 1)
    refine ⟨bk', ?_⟩
    unfold cleanupFiles
    rw [show noFail f.r2_key = false from rfl]
    simp only [Bool.false_eq_true, if_false]
    rw [hspec]
    congr 1
    · congr 1
      rw [List.filter_filter]
      apply List.filter_congr
      intro x _
      simp [List.all_cons, Bool.and_comm]
    · congr 2
      simp only [List.length_cons]
      omega

/-- A failure-free item-blob loop never aborts. -/
theorem deleteItemBlobs_noFail :
    ∀ (items : List FileGroupItemRec) (bk : Bucket),
      ∃ bk', deleteItemBlobs noFail items bk = (bk', false) := by
  intro items
  induction items with
  | nil => intro bk; exact ⟨bk, rfl⟩
  | cons it rest ih =>
    intro bk
    obtain ⟨bk', h⟩ := ih (bucketDelete bk it.r2_key)
    refine ⟨bk', ?_⟩
    unfold deleteItemBlobs
    rw [show noFail it.r2_key = false from rfl]
    simp only [Bool.false_eq_true, if_false]
    exact h

/-- A failure-free group loop never aborts, counts every candidate, deletes
exactly the candidate groups' rows and their member item rows, and leaves
`Files` untouched. -/
theorem cleanupGroups_noFail_spec :
    ∀ (l : List FileGroupRec) (db : D1) (bk : Bucket) (n : Nat),
      ∃ bk', cleanupGroups noFail l db bk n
        = ({ db with
              fileGroups := db.fileGroups.filter (fun h => l.all (fun g => h.id != g.id)),
              fileGroupItems :=
                db.fileGroupItems.filter (fun it => l.all (fun g => it.group_id != g.id)) },
           bk', n + l.length, false) := by
  intro l
  induction l with
  | nil =>
    intro db bk n
    refine ⟨bk, ?_⟩
    simp [cleanupGroups]
  | cons g rest ih =>
    intro db bk n
    obtain ⟨bk0, hblob⟩ := deleteItemBlobs_noFail
      (db.fileGroupItems.filter (fun it => it.group_id == g.id)) bk
    obtain ⟨bk', hspec⟩ := ih
      { db with
        fileGroupItems := db.fileGroupItems.filter (fun it => it.group_id != g.id),
        fileGroups := db.fileGroups.filter (fun h => h.id != g.id) }
      bk0 (n + 1)
    refine ⟨bk', ?_⟩
    unfold cleanupGroups
    rw [hblob]
    show cleanupGroups noFail rest
        { db with
          fileGroupItems := db.fileGroupItems.filter (fun it => it.group_id != g.id),
          fileGroups := db.fileGroups.filter (fun h => h.id != g.id) } bk0 (n + 1) = _
    rw [hspec]
    congr 1
    · congr 1
      · rw [List.filter_filter]
        apply List.filter_congr
        intro x _
        simp [List.all_cons, Bool.and_comm]
      · rw [List.filter_filter]
        apply List.filter_congr
        intro x _
        simp [List.all_cons, Bool.and_comm]
    · congr 2
      simp only [List.length_cons]
      omega

/-- After a failure-free file sweep over the selected candidates, re-running
the selection finds nothing. -/
theorem no_expired_files_after (db : D1) (now : String) :
    List.filter (fun f => isExpired f.expires_at now)
      (db.files.filter (fun f => (expiredFiles db now).all (fun g => f.id != g.id))) = [] := by
  rw [List.filter_eq_nil_iff]
  intro f hf hexp
  rw [List.mem_filter] at hf
  obtain ⟨hmem, hall⟩ := hf
  have hfin : f ∈ expiredFiles db now := List.mem_filter.mpr ⟨hmem, hexp⟩
  have hcontra := List.all_eq_true.mp hall f hfin
  simp at hcontra

/-- Same for the group selection. -/
theorem no_expired_groups_after (db : D1) (now : String) :
    List.filter (fun g => isExpired g.expires_at now)
      (db.fileGroups.filter
        (fun h => (expiredGroups db now).all (fun g => h.id != g.id))) = [] := by
  rw [List.filter_eq_nil_iff]
  intro g hg hexp
  rw [List.mem_filter] at hg
  obtain ⟨hmem, hall⟩ := hg
  have hgin : g ∈ expiredGroups db now := List.mem_filter.mpr ⟨hmem, hexp⟩
  have hcontra := List.all_eq_true.mp hall g hgin
  simp at hcontra

/-- C5: the sweep is idempotent over an unchanged dataset.  Whatever state a
failure-free run leaves behind, an immediately repeated run (same clock)
changes nothing and reports `{deletedFiles := 0, deletedGroups := 0}` —
every delete is modelled idempotently and the selection predicate is
re-evaluated against the post-run state, which contains no expired rows. -/
theorem c5_second_sweep_reports_zero (db : D1) (bk : Bucket) (now : String)
    (out : CleanupOut) (h : adminCleanup noFail db bk now = out) :
    adminCleanup noFail out.db out.bucket now = ⟨out.db, out.bucket, .ok 0 0⟩ := by
  obtain ⟨bk1, h1⟩ := cleanupFiles_noFail_spec (expiredFiles db now) db bk 0
  set dbA : D1 :=
    { db with files :=
        (db.files.filter (fun f => (expiredFiles db now).all (fun g => f.id != g.id))) }
    with hdbA
  obtain ⟨bk2, h2⟩ := cleanupGroups_noFail_spec (expiredGroups dbA now) dbA bk1 0
  set dbB : D1 :=
    { dbA with
      fileGroups :=
        (dbA.fileGroups.filter (fun h => (expiredGroups dbA now).all (fun g => h.id != g.id))),
      fileGroupItems :=
        (dbA.fileGroupItems.filter
          (fun it => (expiredGroups dbA now).all (fun g => it.group_id != g.id))) }
    with hdbB
  have hrun : adminCleanup noFail db bk now
      = ⟨dbB, bk2, .ok (0 + (expiredFiles db now).length)
                      (0 + (expiredGroups dbA now).length)⟩ := by
    unfold adminCleanup
    rw [h1]
    simp only [h2]
  rw [hrun] at h
  subst h
  have hef2 : expiredFiles dbB now = [] := by
    show List.filter _ dbB.files = []
    exact no_expired_files_after db now
  have heg2 : expiredGroups dbB now = [] := by
    show List.filter _ dbB.fileGroups = []
    exact no_expired_groups_after dbA now
  dsimp only
  unfold adminCleanup
  rw [hef2]
  simp only [cleanupFiles, heg2, cleanupGroups]

/-- Witness for C5: a store with one expired file; after the first run the
repeat run returns the same state and zero counts. -/
theorem c5_witness :
    adminCleanup noFail (adminCleanup noFail dbOneExpired bucketAB "2025-01-01").db
        (adminCleanup noFail dbOneExpired bucketAB "2025-01-01").bucket "2025-01-01"
      = ⟨(adminCleanup noFail dbOneExpired bucketAB "2025-01-01").db,
         (adminCleanup noFail dbOneExpired bucketAB "2025-01-01").bucket, .ok 0 0⟩ :=
  c5_second_sweep_reports_zero dbOneExpired bucketAB "2025-01-01" _ rfl
